import Mathlib

/-!
Verification development for the `ago` worker-thread pool
(`src/ago.h`, C++11 implementation in `src/unnamed/part_001`).

The pool's shared state (`struct ago::ago_impl`) consists of a boolean
quit flag `ago_quit`, two queues `func_list`/`arg_list` guarded by the
single mutex `func_mutex`, and two condition variables (`run_condition`
for workers, `idle_condition` for `ago::wait`).  The public operations
are:

* `ago::ago(max_conc)` - sets `ago_quit := false` and spawns
  `max_conc` threads, each running `ago::idle`;
* `ago::go(func, arg)` - under `func_mutex`, pushes `func` onto
  `func_list` and `arg` onto `arg_list`, then calls
  `run_condition.notify_one()`;
* `ago::wait()` - `idle_condition.wait(lock, func_list.empty())`
  under `func_mutex`;
* `ago::~ago()` - writes `ago_quit := true` (without the lock), calls
  `run_condition.notify_all()`, then joins every spawned thread;
* `ago::idle()` - loops: wait under `func_mutex` for
  `!func_list.empty() || ago_quit`; if `ago_quit`, return; otherwise
  pop the front of `func_list` and `arg_list` and record whether
  `func_list` became empty, all in the same critical section; release
  the lock; call `func(arg)`; notify `idle_condition` if the recorded
  flag was set; repeat.

Shallow embedding used below: an interleaving small-step transition
system.  Each critical section of the source (a region executed while
holding `func_mutex`) is one atomic step; running a task happens
outside the lock and is its own step.  Every wait on a condition
variable in the source re-checks a predicate that is evaluated under
`func_mutex`, so a wait's possible return points are exactly the
states satisfying its predicate; the model therefore treats "this
wait can return / this worker can wake" as a step guarded by the
predicate and needs no separate notification bookkeeping for the
safety properties proved here.  (The destructor's write of `ago_quit`
at line 95 of `src/unnamed/part_001` happens *without* the lock; that
locking discipline is analysed separately by the access table
`agoAccesses` below, which records, for every access the source makes
to the shared queues and the quit flag, whether `func_mutex` is held
at that program point.)

Tasks are function/argument pointers in the source; they are embedded
as natural-number codes.  Whether a task body throws when invoked is a
parameter `raises : Nat -> Bool` of the step relation; the source
(line 179, `func(arg);`) installs no handler, so a raising task makes
its worker leave the idle loop abnormally (state `crashed`; in C++ an
exception escaping a thread function calls `std::terminate`, recorded
by the ghost flag `aborted`).

The fields `submitted` and `executed` are ghost history variables:
`submitted` records every `go` call in order, `executed` records every
invocation `func(arg)` in order.  They are write-only logs appended by
the corresponding steps and exist only so that theorems can talk about
which tasks were handed in and which ran.
-/

/-- One worker thread of the pool, i.e. one position of `thread_list`,
abstracted to where it stands in the loop of `ago::idle`
(`src/unnamed/part_001`, lines 139-187). -/
inductive WorkerState where
  /-- Blocked in (or about to re-check) the `run_condition.wait` at
  lines 153-154. -/
  | idle
  /-- Popped `f` and `a` at lines 163-166 and released the lock; about
  to call `func(arg)` at line 179.  `emptyFlag` is the local
  `func_list_empty` captured at lines 172-175. -/
  | running (f a : Nat) (emptyFlag : Bool)
  /-- Returned from `ago::idle` via the quit check at line 157. -/
  | terminated
  /-- A task body raised and the exception escaped the loop (there is
  no handler around line 179); the thread is gone abnormally. -/
  | crashed
deriving DecidableEq

/-- The shared state of one pool (`struct ago::ago_impl`) together
with the ghost logs `submitted`/`executed` and the ghost flag
`aborted` (set when an exception escapes a worker). -/
structure PoolState where
  /-- `ago_impl::ago_quit`. -/
  agoQuit : Bool
  /-- `ago_impl::func_list` (front = oldest). -/
  funcList : List Nat
  /-- `ago_impl::arg_list` (front = oldest). -/
  argList : List Nat
  /-- `ago_impl::thread_list`, one entry per spawned worker. -/
  workers : List WorkerState
  /-- Ghost log: every `func(arg)` invocation, in order. -/
  executed : List (Nat × Nat)
  /-- Ghost log: every `ago::go(func, arg)` call, in order. -/
  submitted : List (Nat × Nat)
  /-- Ghost flag: an exception escaped some worker (`std::terminate`). -/
  aborted : Bool
deriving DecidableEq

/-- The task a worker is currently holding, if any. -/
def taskOf : WorkerState → Option (Nat × Nat)
  | .running f a _ => some (f, a)
  | _ => none

/-- The tasks that have been popped from the queues and are being
executed right now (one per worker in `running` state). -/
def inflight (s : PoolState) : List (Nat × Nat) :=
  s.workers.filterMap taskOf

/-- Effect of `ago::go(func, arg)` (lines 118-129): under one
`lock_guard`, push `func` onto `func_list` and `arg` onto `arg_list`;
then `run_condition.notify_one()` (a no-op on the state).  `go` has
return type `void`: it is total, has no error outcome, and never
inspects `ago_quit`. -/
def goFn (s : PoolState) (f a : Nat) : PoolState :=
  { s with
    funcList := s.funcList ++ [f]
    argList := s.argList ++ [a]
    submitted := s.submitted ++ [(f, a)] }

/-- Effect of the constructor `ago::ago(max_conc)` (lines 67-78):
`ago_quit := false`, then the loop `for(int i = 0; i < max_conc; ++i)`
spawns one idle worker per iteration.  `max_conc` is a C++ `int`; for
`max_conc <= 0` the loop body never runs, which is exactly
`Int.toNat`. -/
def mkAgo (maxConc : Int) : PoolState :=
  { agoQuit := false
    funcList := []
    argList := []
    workers := List.replicate maxConc.toNat WorkerState.idle
    executed := []
    submitted := []
    aborted := false }

/-- Interleaving small-step semantics of the pool.  `raises f` tells
whether invoking task body `f` throws. -/
inductive Step (raises : Nat → Bool) : PoolState → PoolState → Prop where
  /-- A caller runs `ago::go(f, a)` (lines 118-129). -/
  | go (s : PoolState) (f a : Nat) : Step raises s (goFn s f a)
  /-- Worker `i` gets through the wait at lines 153-154 (predicate
  `!func_list.empty() || ago_quit` holds because `ago_quit` does) and
  returns at line 157 without touching the queues. -/
  | grabQuit (s : PoolState) (i : Nat)
      (hw : s.workers[i]? = some WorkerState.idle)
      (hq : s.agoQuit = true) :
      Step raises s { s with workers := s.workers.set i WorkerState.terminated }
  /-- Worker `i` gets through the wait at lines 153-154 with
  `ago_quit` false, so `func_list` is non-empty; still inside the same
  critical section it pops the fronts of `func_list` (lines 163-164)
  and `arg_list` (lines 165-166) and records whether `func_list` is
  now empty (lines 172-175).  `front()`/`pop()` of `std::queue` are
  head/tail of the embedded lists. -/
  | grabTask (s : PoolState) (i f : Nat) (fs : List Nat)
      (hw : s.workers[i]? = some WorkerState.idle)
      (hq : s.agoQuit = false)
      (hf : s.funcList = f :: fs) :
      Step raises s
        { s with
          funcList := fs
          argList := s.argList.tail
          workers := s.workers.set i
            (WorkerState.running f s.argList.headI fs.isEmpty) }
  /-- Worker `i` calls `func(arg)` at line 179, outside the lock.  If
  the body raises, there is no handler, so the worker leaves the loop
  abnormally and `std::terminate` is reached (ghost `aborted`);
  otherwise it notifies `idle_condition` if its flag is set (a no-op
  on the state) and loops back to the wait. -/
  | run (s : PoolState) (i f a : Nat) (b : Bool)
      (hw : s.workers[i]? = some (WorkerState.running f a b)) :
      Step raises s
        { s with
          executed := s.executed ++ [(f, a)]
          workers := s.workers.set i
            (if raises f then WorkerState.crashed else WorkerState.idle)
          aborted := s.aborted || raises f }
  /-- The destructor's first action (line 95): `ago_quit = true`.
  (The source performs this write without holding `func_mutex`; see
  `agoAccesses`.) -/
  | raiseQuit (s : PoolState) (hq : s.agoQuit = false) :
      Step raises s { s with agoQuit := true }

/-- Reachability in zero or more steps. -/
abbrev Reach (raises : Nat → Bool) : PoolState → PoolState → Prop :=
  Relation.ReflTransGen (Step raises)

/-- States in which a call of `ago::wait()` (lines 81-86) returns: its
condition-variable predicate is `func_list.empty()`, evaluated under
`func_mutex`; in particular when the predicate already holds `wait`
returns at once without blocking.  The predicate reads nothing but
`func_list`. -/
abbrev waitCanReturn (s : PoolState) : Prop := s.funcList = []

/-- States in which the destructor's join loop (lines 101-105) has
completed: the quit flag was raised and every spawned worker has
returned from `ago::idle`. -/
abbrev dtorCanReturn (s : PoolState) : Prop :=
  s.agoQuit = true ∧ ∀ w ∈ s.workers, w = WorkerState.terminated

/-- A task-body behaviour under which no task raises. -/
def noRaise : Nat → Bool := fun _ => false

/-- A task-body behaviour under which every task raises. -/
def allRaise : Nat → Bool := fun _ => true

/-- Transport a step along an equality of target states (used to chain
concrete executions whose states are written as literals). -/
theorem step_congr {raises : Nat → Bool} {s t t' : PoolState}
    (h : Step raises s t) (ht : t = t') : Step raises s t' :=
  ht ▸ h

example : (mkAgo 1).workers = [WorkerState.idle] := by decide

example : (mkAgo (-5)).workers = [] := by decide

example : (goFn (mkAgo 1) 5 6).funcList = [5] := by decide

/-- Auxiliary: `filterMap` over a cons, phrased with `Option.toList`
so that appends can be rearranged uniformly. -/
theorem filterMap_cons_toList {α β : Type} (g : α → Option β) (x : α) (l : List α) :
    List.filterMap g (x :: l) = (g x).toList ++ List.filterMap g l := by
  cases hgx : g x <;> simp [List.filterMap_cons, hgx]

/-- Auxiliary: updating index `i` (which holds `w`) to `v` changes a
`filterMap` by removing `w`'s contribution and adding `v`'s, up to
permutation. -/
theorem filterMap_set_perm {α β : Type} (g : α → Option β) :
    ∀ (l : List α) (i : Nat) (w v : α), l[i]? = some w →
      List.Perm ((g w).toList ++ List.filterMap g (l.set i v))
        ((g v).toList ++ List.filterMap g l)
  | [], i, w, v, h => by simp at h
  | x :: xs, 0, w, v, h => by
    rw [List.getElem?_cons_zero] at h
    cases h
    rw [List.set_cons_zero, filterMap_cons_toList, filterMap_cons_toList,
      ← List.append_assoc, ← List.append_assoc]
    exact List.Perm.append_right _ List.perm_append_comm
  | x :: xs, i + 1, w, v, h => by
    rw [List.getElem?_cons_succ] at h
    have ih := filterMap_set_perm g xs i w v h
    rw [List.set_cons_succ, filterMap_cons_toList, filterMap_cons_toList]
    have h1 : List.Perm
        ((g w).toList ++ ((g x).toList ++ List.filterMap g (xs.set i v)))
        ((g x).toList ++ ((g w).toList ++ List.filterMap g (xs.set i v))) := by
      rw [← List.append_assoc, ← List.append_assoc]
      exact List.Perm.append_right _ List.perm_append_comm
    have h2 : List.Perm
        ((g x).toList ++ ((g w).toList ++ List.filterMap g (xs.set i v)))
        ((g x).toList ++ ((g v).toList ++ List.filterMap g xs)) :=
      List.Perm.append_left _ ih
    have h3 : List.Perm
        ((g x).toList ++ ((g v).toList ++ List.filterMap g xs))
        ((g v).toList ++ ((g x).toList ++ List.filterMap g xs)) := by
      rw [← List.append_assoc, ← List.append_assoc]
      exact List.Perm.append_right _ List.perm_append_comm
    exact (h1.trans h2).trans h3

/-- Auxiliary: a successful index lookup bounds the index. -/
theorem getElem?_some_lt {α : Type} :
    ∀ (l : List α) (i : Nat) (w : α), l[i]? = some w → i < l.length
  | [], i, w, h => by simp at h
  | _ :: _, 0, _, _ => Nat.succ_pos _
  | x :: xs, i + 1, w, h => by
    rw [List.getElem?_cons_succ] at h
    exact Nat.succ_lt_succ (getElem?_some_lt xs i w h)

/-- Auxiliary: lookup at the updated index. -/
theorem getElem?_set_self {α : Type} :
    ∀ (l : List α) (i : Nat) (v : α), i < l.length → (l.set i v)[i]? = some v
  | [], i, v, h => by simp at h
  | x :: xs, 0, v, _ => by rw [List.set_cons_zero, List.getElem?_cons_zero]
  | x :: xs, i + 1, v, h => by
    rw [List.set_cons_succ, List.getElem?_cons_succ]
    exact getElem?_set_self xs i v (Nat.lt_of_succ_lt_succ h)

/-- Auxiliary: lookup away from the updated index. -/
theorem getElem?_set_other {α : Type} :
    ∀ (l : List α) (i j : Nat) (v : α), i ≠ j → (l.set i v)[j]? = l[j]?
  | [], _, _, _, _ => by simp
  | x :: xs, 0, 0, v, hne => absurd rfl hne
  | x :: xs, 0, j + 1, v, _ => by
    rw [List.set_cons_zero, List.getElem?_cons_succ, List.getElem?_cons_succ]
  | x :: xs, i + 1, 0, v, _ => by
    rw [List.set_cons_succ, List.getElem?_cons_zero, List.getElem?_cons_zero]
  | x :: xs, i + 1, j + 1, v, hne => by
    rw [List.set_cons_succ, List.getElem?_cons_succ, List.getElem?_cons_succ]
    exact getElem?_set_other xs i j v (fun e => hne (by rw [e]))

/-- Auxiliary: `zip` distributes over appends of equal-length fronts. -/
theorem zip_append_eq {α β : Type} :
    ∀ (l₁ : List α) (l₂ : List β) (r₁ : List α) (r₂ : List β),
      l₁.length = l₂.length →
      (l₁ ++ r₁).zip (l₂ ++ r₂) = l₁.zip l₂ ++ r₁.zip r₂
  | [], [], _, _, _ => rfl
  | [], _ :: _, _, _, h => by simp at h
  | _ :: _, [], _, _, h => by simp at h
  | a :: as, b :: bs, r₁, r₂, h => by
    rw [List.cons_append, List.cons_append, List.zip_cons_cons,
      List.zip_cons_cons, List.cons_append,
      zip_append_eq as bs r₁ r₂ (Nat.succ_injective h)]

/-- The conservation invariant of the pool: the two queues stay in
sync (`func_list` and `arg_list` have the same length at every point
where `func_mutex` is free), and the multiset of submitted
function/argument pairs is exactly the invoked pairs, plus the pairs
held by running workers, plus the paired-up contents of the two
queues. -/
abbrev PoolInv (s : PoolState) : Prop :=
  s.funcList.length = s.argList.length ∧
  List.Perm s.submitted (s.executed ++ inflight s ++ s.funcList.zip s.argList)

theorem inv_init (m : Int) : PoolInv (mkAgo m) := by
  refine ⟨rfl, ?_⟩
  have hz : inflight (mkAgo m) = [] := by
    show List.filterMap taskOf (List.replicate (Int.toNat m) WorkerState.idle) = []
    rw [List.filterMap_replicate]
    rfl
  show List.Perm [] ([] ++ inflight (mkAgo m) ++ ([] : List Nat).zip [])
  rw [hz]
  exact List.Perm.nil

theorem inv_step {raises : Nat → Bool} {s s' : PoolState}
    (h : Step raises s s') (hI : PoolInv s) : PoolInv s' := by
  obtain ⟨hlen, hperm⟩ := hI
  cases h with
  | go f a =>
    refine ⟨?_, ?_⟩
    · show (s.funcList ++ [f]).length = (s.argList ++ [a]).length
      simp [hlen]
    · show List.Perm (s.submitted ++ [(f, a)])
        (s.executed ++ inflight s ++ (s.funcList ++ [f]).zip (s.argList ++ [a]))
      rw [zip_append_eq _ _ _ _ hlen, List.zip_cons_cons, List.zip_nil_left,
        List.perm_iff_count]
      intro p
      have hc := hperm.count_eq p
      simp only [List.count_append] at hc ⊢
      omega
  | grabQuit i hw hq =>
    have hinf := filterMap_set_perm taskOf s.workers i WorkerState.idle
      WorkerState.terminated hw
    simp only [taskOf, Option.toList_none, List.nil_append] at hinf
    refine ⟨hlen, ?_⟩
    show List.Perm s.submitted
      (s.executed ++ List.filterMap taskOf (s.workers.set i WorkerState.terminated)
        ++ s.funcList.zip s.argList)
    rw [List.perm_iff_count]
    intro p
    have hc := hperm.count_eq p
    have hci := hinf.count_eq p
    simp only [inflight, List.count_append] at hc hci ⊢
    omega
  | grabTask i f fs hw hq hf =>
    have hlen2 : fs.length + 1 = s.argList.length := by
      have h2 := hlen
      rw [hf] at h2
      simpa using h2
    cases hA : s.argList with
    | nil => rw [hA] at hlen2; simp at hlen2
    | cons a as =>
      have hinf := filterMap_set_perm taskOf s.workers i WorkerState.idle
        (WorkerState.running f a fs.isEmpty) hw
      simp only [taskOf, Option.toList_none, Option.toList_some,
        List.nil_append] at hinf
      refine ⟨?_, ?_⟩
      · show fs.length = (a :: as).tail.length
        rw [List.tail_cons]
        rw [hA] at hlen2
        simpa using hlen2
      · show List.Perm s.submitted
          (s.executed
            ++ List.filterMap taskOf
                (s.workers.set i (WorkerState.running f (a :: as).headI fs.isEmpty))
            ++ fs.zip (a :: as).tail)
        rw [List.tail_cons, List.headI_cons]
        rw [List.perm_iff_count]
        intro p
        have hc := hperm.count_eq p
        rw [hf, hA, List.zip_cons_cons] at hc
        have hsplit : ((f, a) :: fs.zip as) = [(f, a)] ++ fs.zip as := rfl
        rw [hsplit] at hc
        have hci := hinf.count_eq p
        simp only [inflight, List.count_append] at hc hci ⊢
        omega
  | run i f a b hw =>
    have hinf := filterMap_set_perm taskOf s.workers i (WorkerState.running f a b)
      (if raises f then WorkerState.crashed else WorkerState.idle) hw
    have htask : taskOf (if raises f then WorkerState.crashed else WorkerState.idle)
        = none := by
      cases raises f <;> rfl
    rw [htask] at hinf
    have hrun : taskOf (WorkerState.running f a b) = some (f, a) := rfl
    rw [hrun, Option.toList_some, Option.toList_none, List.nil_append] at hinf
    refine ⟨hlen, ?_⟩
    show List.Perm s.submitted
      ((s.executed ++ [(f, a)])
        ++ List.filterMap taskOf
            (s.workers.set i (if raises f then WorkerState.crashed else WorkerState.idle))
        ++ s.funcList.zip s.argList)
    rw [List.perm_iff_count]
    intro p
    have hc := hperm.count_eq p
    have hci := hinf.count_eq p
    simp only [inflight, List.count_append] at hc hci ⊢
    omega
  | raiseQuit hq =>
    exact ⟨hlen, hperm⟩

theorem inv_reach {raises : Nat → Bool} {s s' : PoolState}
    (h : Reach raises s s') (hI : PoolInv s) : PoolInv s' := by
  induction h with
  | refl => exact hI
  | tail _ hstep ih => exact inv_step hstep ih

/-- No step creates or destroys a worker-thread slot: `thread_list`
is only written by the constructor. -/
theorem workers_len_step {raises : Nat → Bool} {s s' : PoolState}
    (h : Step raises s s') : s'.workers.length = s.workers.length := by
  cases h with
  | go f a => rfl
  | grabQuit i hw hq => exact List.length_set _ _ _
  | grabTask i f fs hw hq hf => exact List.length_set _ _ _
  | run i f a b hw => exact List.length_set _ _ _
  | raiseQuit hq => rfl

theorem workers_len_reach {raises : Nat → Bool} {s s' : PoolState}
    (h : Reach raises s s') : s'.workers.length = s.workers.length := by
  induction h with
  | refl => rfl
  | tail _ hstep ih => rw [workers_len_step hstep, ih]

/-- Auxiliary: a successful lookup in a list of length one pins down
both the index and the whole list. -/
theorem singleton_lookup {α : Type} {l : List α} {v : α} {i : Nat}
    (hl : l.length = 1) (h : l[i]? = some v) : i = 0 ∧ l = [v] := by
  cases l with
  | nil => simp at hl
  | cons w ws =>
    cases ws with
    | cons x xs => simp at hl
    | nil =>
      cases i with
      | zero =>
        rw [List.getElem?_cons_zero] at h
        cases h
        exact ⟨rfl, rfl⟩
      | succ j =>
        rw [List.getElem?_cons_succ] at h
        simp at h

/-- Order-exact version of the conservation invariant, which holds
when the pool has a single worker: the submission log literally equals
executed tasks, then the (at most one) in-flight task, then the queue
contents, in order. -/
abbrev PoolInvOne (s : PoolState) : Prop :=
  s.funcList.length = s.argList.length ∧
  s.submitted = s.executed ++ inflight s ++ s.funcList.zip s.argList

theorem invOne_init : PoolInvOne (mkAgo 1) := by
  constructor <;> decide

theorem invOne_step {raises : Nat → Bool} {s s' : PoolState}
    (h : Step raises s s') (hw1 : s.workers.length = 1)
    (hI : PoolInvOne s) : PoolInvOne s' := by
  obtain ⟨hlen, heq⟩ := hI
  cases h with
  | go f a =>
    refine ⟨?_, ?_⟩
    · show (s.funcList ++ [f]).length = (s.argList ++ [a]).length
      simp [hlen]
    · show s.submitted ++ [(f, a)] =
        s.executed ++ inflight s ++ (s.funcList ++ [f]).zip (s.argList ++ [a])
      rw [zip_append_eq _ _ _ _ hlen, List.zip_cons_cons, List.zip_nil_left, heq]
      simp [List.append_assoc]
  | grabQuit i hw hq =>
    obtain ⟨hi0, hws⟩ := singleton_lookup hw1 hw
    refine ⟨hlen, ?_⟩
    show s.submitted = s.executed
      ++ List.filterMap taskOf (s.workers.set i WorkerState.terminated)
      ++ s.funcList.zip s.argList
    rw [hws, hi0, List.set_cons_zero]
    have h1 : List.filterMap taskOf [WorkerState.terminated] = [] := rfl
    have h2 : inflight s = [] := by
      show List.filterMap taskOf s.workers = []
      rw [hws]
      rfl
    rw [h1, heq, h2]
  | grabTask i f fs hw hq hf =>
    obtain ⟨hi0, hws⟩ := singleton_lookup hw1 hw
    have hlen2 : fs.length + 1 = s.argList.length := by
      rw [hf] at hlen
      simpa using hlen
    cases hA : s.argList with
    | nil => rw [hA] at hlen2; simp at hlen2
    | cons a as =>
      refine ⟨?_, ?_⟩
      · show fs.length = (a :: as).tail.length
        rw [List.tail_cons]
        rw [hA] at hlen2
        simpa using hlen2
      · show s.submitted = s.executed
          ++ List.filterMap taskOf
              (s.workers.set i (WorkerState.running f (a :: as).headI fs.isEmpty))
          ++ fs.zip (a :: as).tail
        rw [List.tail_cons, List.headI_cons, hws, hi0, List.set_cons_zero]
        have h1 : List.filterMap taskOf [WorkerState.running f a fs.isEmpty]
            = [(f, a)] := rfl
        have h2 : inflight s = [] := by
          show List.filterMap taskOf s.workers = []
          rw [hws]
          rfl
        rw [h1, heq, h2, hf, hA, List.zip_cons_cons]
        simp
  | run i f a b hw =>
    obtain ⟨hi0, hws⟩ := singleton_lookup hw1 hw
    refine ⟨hlen, ?_⟩
    show s.submitted = (s.executed ++ [(f, a)])
      ++ List.filterMap taskOf
          (s.workers.set i (if raises f then WorkerState.crashed else WorkerState.idle))
      ++ s.funcList.zip s.argList
    rw [hws, hi0, List.set_cons_zero]
    have h1 : List.filterMap taskOf
        [if raises f then WorkerState.crashed else WorkerState.idle] = [] := by
      cases raises f <;> rfl
    have h2 : inflight s = [(f, a)] := by
      show List.filterMap taskOf s.workers = [(f, a)]
      rw [hws]
      rfl
    rw [h1, heq, h2]
    simp
  | raiseQuit hq => exact ⟨hlen, heq⟩

theorem invOne_reach {raises : Nat → Bool} {s s' : PoolState}
    (h : Reach raises s s') (hw1 : s.workers.length = 1)
    (hI : PoolInvOne s) : PoolInvOne s' := by
  induction h with
  | refl => exact hI
  | tail hr hstep ih =>
    exact invOne_step hstep (by rw [workers_len_reach hr, hw1]) ih

/-- Once the quit flag is up, it stays up, the queues only grow at the
back (workers stop popping: the check at line 157 precedes any queue
access, so a woken worker returns instead of popping), and everything
appended to the execution log from now on comes from the tasks that
were already in flight when the flag went up. -/
theorem quit_step {raises : Nat → Bool} {s s' : PoolState}
    (h : Step raises s s') (hq : s.agoQuit = true) :
    s'.agoQuit = true ∧
    (∃ e1, s'.funcList = s.funcList ++ e1) ∧
    (∃ e2, s'.argList = s.argList ++ e2) ∧
    ∃ ws, s'.executed = s.executed ++ ws ∧
      List.Perm (ws ++ inflight s') (inflight s) := by
  cases h with
  | go f a =>
    refine ⟨hq, ⟨[f], rfl⟩, ⟨[a], rfl⟩, [], (List.append_nil _).symm, ?_⟩
    rw [List.nil_append]
    exact List.Perm.refl _
  | grabQuit i hw hq2 =>
    refine ⟨hq, ⟨[], (List.append_nil _).symm⟩, ⟨[], (List.append_nil _).symm⟩,
      [], (List.append_nil _).symm, ?_⟩
    have hinf := filterMap_set_perm taskOf s.workers i WorkerState.idle
      WorkerState.terminated hw
    simp only [taskOf, Option.toList_none, List.nil_append] at hinf
    rw [List.nil_append]
    exact hinf
  | grabTask i f fs hw hqf hf =>
    rw [hqf] at hq
    cases hq
  | run i f a b hw =>
    refine ⟨hq, ⟨[], (List.append_nil _).symm⟩, ⟨[], (List.append_nil _).symm⟩,
      [(f, a)], rfl, ?_⟩
    have hinf := filterMap_set_perm taskOf s.workers i (WorkerState.running f a b)
      (if raises f then WorkerState.crashed else WorkerState.idle) hw
    have htask : taskOf (if raises f then WorkerState.crashed else WorkerState.idle)
        = none := by
      cases raises f <;> rfl
    have hrun : taskOf (WorkerState.running f a b) = some (f, a) := rfl
    rw [htask, hrun, Option.toList_some, Option.toList_none, List.nil_append] at hinf
    exact hinf
  | raiseQuit hqf =>
    rw [hqf] at hq
    cases hq

theorem quit_reach {raises : Nat → Bool} {s s' : PoolState}
    (h : Reach raises s s') (hq : s.agoQuit = true) :
    s'.agoQuit = true ∧
    (∃ e1, s'.funcList = s.funcList ++ e1) ∧
    (∃ e2, s'.argList = s.argList ++ e2) ∧
    ∃ ws, s'.executed = s.executed ++ ws ∧
      List.Perm (ws ++ inflight s') (inflight s) := by
  induction h with
  | refl =>
    exact ⟨hq, ⟨[], (List.append_nil _).symm⟩, ⟨[], (List.append_nil _).symm⟩,
      [], (List.append_nil _).symm, List.Perm.refl _⟩
  | tail hr hstep ih =>
    obtain ⟨hq1, ⟨e1, hE1⟩, ⟨e2, hE2⟩, ws, hW, hP⟩ := ih
    obtain ⟨hq2, ⟨f1, hF1⟩, ⟨f2, hF2⟩, w1, hW1, hP1⟩ := quit_step hstep hq1
    refine ⟨hq2, ⟨e1 ++ f1, ?_⟩, ⟨e2 ++ f2, ?_⟩, ws ++ w1, ?_, ?_⟩
    · rw [hF1, hE1, List.append_assoc]
    · rw [hF2, hE2, List.append_assoc]
    · rw [hW1, hW, List.append_assoc]
    · rw [List.append_assoc]
      exact (List.Perm.append_left ws hP1).trans hP

/-- A worker whose task raised never comes back: no step moves a
worker out of the `crashed` state. -/
theorem crashed_step {raises : Nat → Bool} {s s' : PoolState}
    (h : Step raises s s') (i : Nat)
    (hc : s.workers[i]? = some WorkerState.crashed) :
    s'.workers[i]? = some WorkerState.crashed := by
  cases h with
  | go f a => exact hc
  | raiseQuit hq => exact hc
  | grabQuit j hw hq =>
    have hne : j ≠ i := by
      intro e
      rw [e, hc] at hw
      simp at hw
    rw [getElem?_set_other s.workers j i WorkerState.terminated hne]
    exact hc
  | grabTask j f fs hw hq hf =>
    have hne : j ≠ i := by
      intro e
      rw [e, hc] at hw
      simp at hw
    rw [getElem?_set_other s.workers j i _ hne]
    exact hc
  | run j f a b hw =>
    have hne : j ≠ i := by
      intro e
      rw [e, hc] at hw
      simp at hw
    rw [getElem?_set_other s.workers j i _ hne]
    exact hc

/-- Once `std::terminate` has been reached, that fact does not go
away. -/
theorem aborted_step {raises : Nat → Bool} {s s' : PoolState}
    (h : Step raises s s') (ha : s.aborted = true) : s'.aborted = true := by
  cases h with
  | go f a => exact ha
  | grabQuit i hw hq => exact ha
  | grabTask i f fs hw hq hf => exact ha
  | run i f a b hw =>
    show (s.aborted || raises f) = true
    rw [ha]
    rfl
  | raiseQuit hq => exact ha

theorem crashed_reach {raises : Nat → Bool} {s s' : PoolState}
    (h : Reach raises s s') (i : Nat)
    (hc : s.workers[i]? = some WorkerState.crashed) (ha : s.aborted = true) :
    s'.workers[i]? = some WorkerState.crashed ∧ s'.aborted = true := by
  induction h with
  | refl => exact ⟨hc, ha⟩
  | tail _ hstep ih => exact ⟨crashed_step hstep i ih.1, aborted_step hstep ih.2⟩

/-- A pool constructed with no workers never executes anything: there
is no thread to pop the queue. -/
theorem no_workers_frozen {raises : Nat → Bool} {s s' : PoolState}
    (h : Reach raises s s') (hw : s.workers = []) (he : s.executed = []) :
    s'.workers = [] ∧ s'.executed = [] := by
  induction h with
  | refl => exact ⟨hw, he⟩
  | tail _ hstep ih =>
    obtain ⟨hw2, he2⟩ := ih
    cases hstep with
    | go f a => exact ⟨hw2, he2⟩
    | grabQuit i hwi hq => rw [hw2] at hwi; simp at hwi
    | grabTask i f fs hwi hq hf => rw [hw2] at hwi; simp at hwi
    | run i f a b hwi => rw [hw2] at hwi; simp at hwi
    | raiseQuit hq => exact ⟨hw2, he2⟩

/-- The functions of `src/unnamed/part_001` that touch the pool's
shared state. -/
inductive SrcFn where
  /-- `ago::ago` (lines 67-78). -/
  | inCtor
  /-- `ago::~ago` (lines 92-114). -/
  | inDtor
  /-- `ago::go` (lines 118-129). -/
  | inGo
  /-- `ago::wait` (lines 81-86). -/
  | inWait
  /-- `ago::idle` (lines 139-187). -/
  | inIdle
deriving DecidableEq

/-- The pieces of pool-internal shared state named by the spec: the
two queues and the quit flag. -/
inductive SharedVar where
  | funcListVar
  | argListVar
  | quitFlag
deriving DecidableEq

/-- One source-level access to a piece of shared state, together with
whether `func_mutex` is held at that program point. -/
structure VarAccess where
  fn : SrcFn
  line : Nat
  var : SharedVar
  isWrite : Bool
  underFuncMutex : Bool
deriving DecidableEq

/-- Every access that `src/unnamed/part_001` makes to `func_list`,
`arg_list` and `ago_quit`, transcribed line by line.
* line 70: ctor writes `ago_quit = false` — no lock (no other thread
  exists yet);
* line 85: `wait`'s predicate reads `func_list.empty()` — under the
  `unique_lock` of line 84;
* line 95: the destructor writes `ago_quit = true` — NO lock is held
  (the `notify_all` at line 98 is also made without the lock);
* lines 123-124: `go` pushes onto both queues — under the
  `lock_guard` of line 122;
* line 154: `idle`'s wait predicate reads `func_list.empty()` and
  `ago_quit` — under the `unique_lock` of line 152;
* line 157: `idle` reads `ago_quit` — same critical section;
* lines 163-166: `idle` reads and pops the fronts of both queues —
  same critical section;
* line 172: `idle` reads `func_list.empty()` — same critical
  section. -/
def agoAccesses : List VarAccess :=
  [⟨SrcFn.inCtor, 70, SharedVar.quitFlag, true, false⟩,
   ⟨SrcFn.inWait, 85, SharedVar.funcListVar, false, true⟩,
   ⟨SrcFn.inDtor, 95, SharedVar.quitFlag, true, false⟩,
   ⟨SrcFn.inGo, 123, SharedVar.funcListVar, true, true⟩,
   ⟨SrcFn.inGo, 124, SharedVar.argListVar, true, true⟩,
   ⟨SrcFn.inIdle, 154, SharedVar.funcListVar, false, true⟩,
   ⟨SrcFn.inIdle, 154, SharedVar.quitFlag, false, true⟩,
   ⟨SrcFn.inIdle, 157, SharedVar.quitFlag, false, true⟩,
   ⟨SrcFn.inIdle, 163, SharedVar.funcListVar, false, true⟩,
   ⟨SrcFn.inIdle, 164, SharedVar.funcListVar, true, true⟩,
   ⟨SrcFn.inIdle, 165, SharedVar.argListVar, false, true⟩,
   ⟨SrcFn.inIdle, 166, SharedVar.argListVar, true, true⟩,
   ⟨SrcFn.inIdle, 172, SharedVar.funcListVar, false, true⟩]

/-- What a failed construction leaves behind.  In the source the
constructor (lines 67-78) wraps the spawning loop in no try/catch: if
`new std::thread` throws at iteration `spawned`, the exception
propagates out of the constructor, so `ago_quit` is never raised for
the already-spawned workers and none of them is joined. -/
structure CtorCrash where
  /-- Threads already created when the throw happened. -/
  spawned : Nat
  /-- Whether the quit flag was raised before the constructor exited
  (the source has no cleanup code, so this is `false`). -/
  quitRaisedBeforeExit : Bool
  /-- How many of the spawned threads were joined before the
  constructor exited (the source has no cleanup code, so `0`). -/
  threadsJoined : Nat
deriving DecidableEq

/-- The constructor's spawning loop (lines 74-77), with a fault model:
`failAt = some j` means the `j`-th `new std::thread` throws.  Returns
the number of threads spawned on success. -/
def spawnLoop (failAt : Option Nat) : Nat → Nat → Except CtorCrash Nat
  | spawned, 0 => Except.ok spawned
  | spawned, k + 1 =>
    if failAt = some spawned then
      Except.error
        { spawned := spawned, quitRaisedBeforeExit := false, threadsJoined := 0 }
    else
      spawnLoop failAt (spawned + 1) k

/-- `ago::ago(maxConc)` under the fault model: run the spawning loop;
on success the pool has all its workers, on a throw the `CtorCrash`
record escapes to the caller. -/
def ctorRun (maxConc : Int) (failAt : Option Nat) : Except CtorCrash PoolState :=
  match spawnLoop failAt 0 maxConc.toNat with
  | Except.error e => Except.error e
  | Except.ok _ => Except.ok (mkAgo maxConc)

theorem spawnLoop_ok (failAt : Option Nat) :
    ∀ (k spawned : Nat),
      (∀ i, failAt = some i → i < spawned ∨ spawned + k ≤ i) →
      spawnLoop failAt spawned k = Except.ok (spawned + k)
  | 0, spawned, _ => rfl
  | k + 1, spawned, hcond => by
    have hne : ¬ failAt = some spawned := by
      intro he
      rcases hcond spawned he with h | h <;> omega
    have hrec := spawnLoop_ok failAt k (spawned + 1) (by
      intro i hi
      rcases hcond i hi with h | h
      · exact Or.inl (by omega)
      · exact Or.inr (by omega))
    show (if failAt = some spawned then _ else spawnLoop failAt (spawned + 1) k)
      = Except.ok (spawned + (k + 1))
    rw [if_neg hne, hrec]
    congr 1
    omega

theorem spawnLoop_fail :
    ∀ (k spawned i : Nat), spawned ≤ i → i < spawned + k →
      spawnLoop (some i) spawned k = Except.error
        { spawned := i, quitRaisedBeforeExit := false, threadsJoined := 0 }
  | 0, spawned, i, h1, h2 => absurd h2 (by omega)
  | k + 1, spawned, i, h1, h2 => by
    show (if some i = some spawned then Except.error
        { spawned := spawned, quitRaisedBeforeExit := false, threadsJoined := 0 }
      else spawnLoop (some i) (spawned + 1) k) = _
    by_cases he : i = spawned
    · subst he
      rw [if_pos rfl]
    · rw [if_neg (fun hc => he (Option.some.inj hc))]
      exact spawnLoop_fail k (spawned + 1) i (by omega) (by omega)

/-- C1 scenario, middle state: a single-worker pool after
`ago::go(5, 6)`. -/
def c1Mid : PoolState :=
  { agoQuit := false, funcList := [5], argList := [6],
    workers := [WorkerState.idle], executed := [], submitted := [(5, 6)],
    aborted := false }

/-- C1 scenario, final state: the worker has popped task `(5, 6)` —
the queue is now empty — and is still running it. -/
def c1State : PoolState :=
  { agoQuit := false, funcList := [], argList := [],
    workers := [WorkerState.running 5 6 true], executed := [],
    submitted := [(5, 6)], aborted := false }

theorem c1_reach : Reach noRaise (mkAgo 1) c1State := by
  have h1 : Step noRaise (mkAgo 1) c1Mid :=
    step_congr (Step.go (mkAgo 1) 5 6) (by decide)
  have h2 : Step noRaise c1Mid c1State :=
    step_congr (Step.grabTask c1Mid 0 5 [] (by decide) (by decide) (by decide))
      (by decide)
  exact Relation.ReflTransGen.tail (Relation.ReflTransGen.single h1) h2

/-- Claim C1, counterexample: in the reachable state `c1State` the
queue is empty, so `ago::wait`'s predicate `func_list.empty()` holds
and a call of `wait` returns at once — while the worker is still
running the last-popped task `(5, 6)`.  The drain condition "queue
empty AND no task executing" is therefore not what `wait` waits for:
`wait` can return while the last-popped task is still running. -/
theorem c1_counterexample :
    Reach noRaise (mkAgo 1) c1State ∧ waitCanReturn c1State ∧
    inflight c1State = [(5, 6)] ∧
    c1State.workers = [WorkerState.running 5 6 true] :=
  ⟨c1_reach, rfl, rfl, rfl⟩

/-- Claim C1 (amended): `ago::wait` returns exactly when the task
queue is empty (its predicate reads only `func_list`); whenever it
returns, every submitted task has been handed to a worker — already
invoked or currently in flight — but `wait` may return while the
last-popped task is still executing. -/
theorem c1_amended (raises : Nat → Bool) (m : Int) (s : PoolState)
    (h : Reach raises (mkAgo m) s) (hwait : waitCanReturn s) :
    s.funcList = [] ∧ List.Perm s.submitted (s.executed ++ inflight s) := by
  obtain ⟨hlen, hperm⟩ := inv_reach h (inv_init m)
  refine ⟨hwait, ?_⟩
  rw [hwait, List.zip_nil_left, List.append_nil] at hperm
  exact hperm

/-- Witness for `c1_amended` at the concrete C1 scenario. -/
theorem c1_amended_witness :
    (Reach noRaise (mkAgo 1) c1State ∧ waitCanReturn c1State) ∧
    (c1State.funcList = [] ∧
      List.Perm c1State.submitted (c1State.executed ++ inflight c1State)) :=
  ⟨⟨c1_reach, rfl⟩, c1_amended noRaise 1 c1State c1_reach rfl⟩

/-- C2 scenario states: one worker, one task `(3, 4)` submitted,
popped, and run to completion. -/
def c2Mid1 : PoolState :=
  { agoQuit := false, funcList := [3], argList := [4],
    workers := [WorkerState.idle], executed := [], submitted := [(3, 4)],
    aborted := false }

def c2Mid2 : PoolState :=
  { agoQuit := false, funcList := [], argList := [],
    workers := [WorkerState.running 3 4 true], executed := [],
    submitted := [(3, 4)], aborted := false }

def c2State : PoolState :=
  { agoQuit := false, funcList := [], argList := [],
    workers := [WorkerState.idle], executed := [(3, 4)],
    submitted := [(3, 4)], aborted := false }

theorem c2_reach : Reach noRaise (mkAgo 1) c2State := by
  have h1 : Step noRaise (mkAgo 1) c2Mid1 :=
    step_congr (Step.go (mkAgo 1) 3 4) (by decide)
  have h2 : Step noRaise c2Mid1 c2Mid2 :=
    step_congr (Step.grabTask c2Mid1 0 3 [] (by decide) (by decide) (by decide))
      (by decide)
  have h3 : Step noRaise c2Mid2 c2State :=
    step_congr (Step.run c2Mid2 0 3 4 true (by decide)) (by decide)
  exact Relation.ReflTransGen.tail
    (Relation.ReflTransGen.tail (Relation.ReflTransGen.single h1) h2) h3

/-- Claim C2: exactly-once execution.  At every reachable state of any
pool the invocation log is a sub-multiset of the submission log (no
task is ever invoked more often than it was submitted — the pop at
lines 163-166 happens under the lock, so two workers cannot pop the
same task); and whenever the pool has drained (queue empty, no task in
flight), the invocation log is a permutation of the submission log:
every submitted task was invoked exactly once.  (That a drain is
eventually reached is a scheduler-fairness property outside this
safety model.) -/
theorem c2_exactly_once (raises : Nat → Bool) (m : Int) (s : PoolState)
    (h : Reach raises (mkAgo m) s) :
    (∃ rest, List.Perm (s.executed ++ rest) s.submitted) ∧
    (s.funcList = [] → inflight s = [] →
      List.Perm s.executed s.submitted) := by
  obtain ⟨hlen, hperm⟩ := inv_reach h (inv_init m)
  constructor
  · refine ⟨inflight s ++ s.funcList.zip s.argList, ?_⟩
    rw [← List.append_assoc]
    exact hperm.symm
  · intro hF hI
    rw [hF, hI, List.zip_nil_left, List.append_nil, List.append_nil] at hperm
    exact hperm.symm

/-- Witness for `c2_exactly_once` at the concrete C2 scenario (the
drained state after one task was submitted and run). -/
theorem c2_witness :
    Reach noRaise (mkAgo 1) c2State ∧
    (∃ rest, List.Perm (c2State.executed ++ rest) c2State.submitted) ∧
    List.Perm c2State.executed c2State.submitted :=
  ⟨c2_reach, (c2_exactly_once noRaise 1 c2State c2_reach).1,
    (c2_exactly_once noRaise 1 c2State c2_reach).2 rfl rfl⟩

/-- C3 scenario states: one worker; tasks `(5, 6)` and `(7, 8)`
submitted; the worker pops `(5, 6)`; the destructor raises the quit
flag while `(5, 6)` is in flight and `(7, 8)` is still queued; the
worker finishes `(5, 6)`, observes the flag and terminates. -/
def c3T1 : PoolState :=
  { agoQuit := false, funcList := [5], argList := [6],
    workers := [WorkerState.idle], executed := [], submitted := [(5, 6)],
    aborted := false }

def c3T2 : PoolState :=
  { agoQuit := false, funcList := [5, 7], argList := [6, 8],
    workers := [WorkerState.idle], executed := [],
    submitted := [(5, 6), (7, 8)], aborted := false }

def c3T3 : PoolState :=
  { agoQuit := false, funcList := [7], argList := [8],
    workers := [WorkerState.running 5 6 false], executed := [],
    submitted := [(5, 6), (7, 8)], aborted := false }

def c3Mid : PoolState :=
  { agoQuit := true, funcList := [7], argList := [8],
    workers := [WorkerState.running 5 6 false], executed := [],
    submitted := [(5, 6), (7, 8)], aborted := false }

def c3T5 : PoolState :=
  { agoQuit := true, funcList := [7], argList := [8],
    workers := [WorkerState.idle], executed := [(5, 6)],
    submitted := [(5, 6), (7, 8)], aborted := false }

def c3End : PoolState :=
  { agoQuit := true, funcList := [7], argList := [8],
    workers := [WorkerState.terminated], executed := [(5, 6)],
    submitted := [(5, 6), (7, 8)], aborted := false }

theorem c3_reach1 : Reach noRaise (mkAgo 1) c3Mid := by
  have h1 : Step noRaise (mkAgo 1) c3T1 :=
    step_congr (Step.go (mkAgo 1) 5 6) (by decide)
  have h2 : Step noRaise c3T1 c3T2 :=
    step_congr (Step.go c3T1 7 8) (by decide)
  have h3 : Step noRaise c3T2 c3T3 :=
    step_congr (Step.grabTask c3T2 0 5 [7] (by decide) (by decide) (by decide))
      (by decide)
  have h4 : Step noRaise c3T3 c3Mid :=
    step_congr (Step.raiseQuit c3T3 (by decide)) (by decide)
  exact Relation.ReflTransGen.tail (Relation.ReflTransGen.tail
    (Relation.ReflTransGen.tail (Relation.ReflTransGen.single h1) h2) h3) h4

theorem c3_reach2 : Reach noRaise c3Mid c3End := by
  have h5 : Step noRaise c3Mid c3T5 :=
    step_congr (Step.run c3Mid 0 5 6 false (by decide)) (by decide)
  have h6 : Step noRaise c3T5 c3End :=
    step_congr (Step.grabQuit c3T5 0 (by decide) (by decide)) (by decide)
  exact Relation.ReflTransGen.tail (Relation.ReflTransGen.single h5) h6

/-- Claim C3: the teardown drop policy.  Take any reachable state `s`
in which the quit flag is up (the destructor's write at line 95 has
happened) and any later state `s'` in which every worker has
terminated (the join loop at lines 101-105 — and hence the destructor
— can only complete in such a state, and all of the pool's workers are
joined there).  Then: the pairs queued at `s` are still at the front
of the queues at `s'`, in order — no worker ever popped them, because
a woken worker checks `ago_quit` (line 157) before touching the
queues, so they are never executed; and what was appended to the
invocation log between `s` and `s'` is exactly (a permutation of) the
tasks that were in flight at `s`: every popped task ran to
completion before the destructor could return. -/
theorem c3_teardown (raises : Nat → Bool) (m : Int) (s s' : PoolState)
    (h0 : Reach raises (mkAgo m) s) (hq : s.agoQuit = true)
    (h1 : Reach raises s s')
    (hterm : ∀ w ∈ s'.workers, w = WorkerState.terminated) :
    s'.workers.length = m.toNat ∧
    (∃ t, s.funcList.zip s.argList ++ t = s'.funcList.zip s'.argList) ∧
    ∃ ws, s'.executed = s.executed ++ ws ∧ List.Perm ws (inflight s) := by
  obtain ⟨hlen, _⟩ := inv_reach h0 (inv_init m)
  obtain ⟨hq2, ⟨e1, hE1⟩, ⟨e2, hE2⟩, ws, hW, hP⟩ := quit_reach h1 hq
  have hIe : inflight s' = [] := by
    show List.filterMap taskOf s'.workers = []
    rw [List.filterMap_eq_nil_iff]
    intro w hwmem
    rw [hterm w hwmem]
    rfl
  refine ⟨?_, ⟨e1.zip e2, ?_⟩, ws, hW, ?_⟩
  · rw [workers_len_reach h1, workers_len_reach h0]
    exact List.length_replicate _ _
  · rw [hE1, hE2, zip_append_eq _ _ _ _ hlen]
  · rw [hIe, List.append_nil] at hP
    exact hP

/-- Witness for `c3_teardown` at the concrete C3 scenario. -/
theorem c3_witness :
    (Reach noRaise (mkAgo 1) c3Mid ∧ c3Mid.agoQuit = true ∧
      Reach noRaise c3Mid c3End ∧
      ∀ w ∈ c3End.workers, w = WorkerState.terminated) ∧
    (c3End.workers.length = Int.toNat 1 ∧
      (∃ t, c3Mid.funcList.zip c3Mid.argList ++ t
        = c3End.funcList.zip c3End.argList) ∧
      ∃ ws, c3End.executed = c3Mid.executed ++ ws ∧
        List.Perm ws (inflight c3Mid)) :=
  ⟨⟨c3_reach1, rfl, c3_reach2, by decide⟩,
    c3_teardown noRaise 1 c3Mid c3End c3_reach1 rfl c3_reach2 (by decide)⟩

/-- C4 scenario states: a zero-worker pool whose destructor has raised
the quit flag, and then `ago::go(7, 3)` is called. -/
def c4Quit : PoolState :=
  { agoQuit := true, funcList := [], argList := [], workers := [],
    executed := [], submitted := [], aborted := false }

def c4State : PoolState :=
  { agoQuit := true, funcList := [7], argList := [3], workers := [],
    executed := [], submitted := [(7, 3)], aborted := false }

theorem c4_reach : Reach noRaise (mkAgo 0) c4State := by
  have h1 : Step noRaise (mkAgo 0) c4Quit :=
    step_congr (Step.raiseQuit (mkAgo 0) (by decide)) (by decide)
  have h2 : Step noRaise c4Quit c4State :=
    step_congr (Step.go c4Quit 7 3) (by decide)
  exact Relation.ReflTransGen.tail (Relation.ReflTransGen.single h1) h2

/-- Claim C4, counterexample: `ago::go` has return type `void` and
never inspects `ago_quit` (lines 118-129), so after shutdown has begun
(`c4Quit.agoQuit = true`) the call `go(7, 3)` still succeeds — it is
the total function `goFn`, there is no `SubmitError` value anywhere in
the interface — the task is enqueued (silently accepted), and it is
never executed in any continuation (silently dropped), with nothing
reported to the caller. -/
theorem c4_counterexample :
    Reach noRaise (mkAgo 0) c4State ∧ c4Quit.agoQuit = true ∧
    goFn c4Quit 7 3 = c4State ∧ c4State.submitted = [(7, 3)] ∧
    ∀ s', Reach noRaise c4State s' → s'.executed = [] := by
  refine ⟨c4_reach, rfl, by decide, rfl, ?_⟩
  intro s' h
  exact (no_workers_frozen h rfl rfl).2

/-- Claim C4 (amended): `ago::go` never reports an error and never
blocks: in every state — before or after shutdown has begun — it
performs its single enqueue step and appends the task at the back of
the queue.  A task submitted after the quit flag is up stays in the
queue forever (workers stop popping), and only tasks that were already
in flight can still reach the invocation log: the late submission is
silently accepted and never executed. -/
theorem c4_amended (raises : Nat → Bool) (s : PoolState) (f a : Nat) :
    Step raises s (goFn s f a) ∧
    (goFn s f a).funcList = s.funcList ++ [f] ∧
    (goFn s f a).agoQuit = s.agoQuit ∧
    (s.agoQuit = true → ∀ s', Reach raises (goFn s f a) s' →
      (∃ e, s'.funcList = (s.funcList ++ [f]) ++ e) ∧
      ∃ ws, s'.executed = s.executed ++ ws ∧
        List.Perm (ws ++ inflight s') (inflight s)) := by
  refine ⟨Step.go s f a, rfl, rfl, ?_⟩
  intro hq s' h
  obtain ⟨_, ⟨e1, hE1⟩, _, ws, hW, hP⟩ := quit_reach h hq
  exact ⟨⟨e1, hE1⟩, ws, hW, hP⟩

/-- Witness for `c4_amended` at the concrete C4 scenario. -/
theorem c4_amended_witness :
    (c4Quit.agoQuit = true ∧ Step noRaise c4Quit (goFn c4Quit 7 3)) ∧
    ((goFn c4Quit 7 3).funcList = c4Quit.funcList ++ [7] ∧
      ∀ s', Reach noRaise (goFn c4Quit 7 3) s' →
        (∃ e, s'.funcList = (c4Quit.funcList ++ [7]) ++ e) ∧
        ∃ ws, s'.executed = c4Quit.executed ++ ws ∧
          List.Perm (ws ++ inflight s') (inflight c4Quit)) :=
  ⟨⟨rfl, (c4_amended noRaise c4Quit 7 3).1⟩,
    ⟨(c4_amended noRaise c4Quit 7 3).2.1,
      (c4_amended noRaise c4Quit 7 3).2.2.2 rfl⟩⟩

/-- C5 scenario states: one worker; task `0` (with argument `0`) is
submitted and popped; under the behaviour `allRaise` its body throws
when invoked. -/
def c5Go : PoolState :=
  { agoQuit := false, funcList := [0], argList := [0],
    workers := [WorkerState.idle], executed := [], submitted := [(0, 0)],
    aborted := false }

def c5Mid : PoolState :=
  { agoQuit := false, funcList := [], argList := [],
    workers := [WorkerState.running 0 0 true], executed := [],
    submitted := [(0, 0)], aborted := false }

def c5End : PoolState :=
  { agoQuit := false, funcList := [], argList := [],
    workers := [WorkerState.crashed], executed := [(0, 0)],
    submitted := [(0, 0)], aborted := true }

theorem c5_reach : Reach allRaise (mkAgo 1) c5End := by
  have h1 : Step allRaise (mkAgo 1) c5Go :=
    step_congr (Step.go (mkAgo 1) 0 0) (by decide)
  have h2 : Step allRaise c5Go c5Mid :=
    step_congr (Step.grabTask c5Go 0 0 [] (by decide) (by decide) (by decide))
      (by decide)
  have h3 : Step allRaise c5Mid c5End :=
    step_congr (Step.run c5Mid 0 0 0 true (by decide)) (by decide)
  exact Relation.ReflTransGen.tail
    (Relation.ReflTransGen.tail (Relation.ReflTransGen.single h1) h2) h3

/-- Claim C5, counterexample: the worker's call `func(arg)` at line
179 sits inside no try/catch, so when the task body raises, the
failure is not contained: in the reachable state `c5End` the worker
has left its loop abnormally (it never returns to idle) and, the
exception having escaped a thread function, `std::terminate` has been
reached — the pool is aborted. -/
theorem c5_counterexample :
    Reach allRaise (mkAgo 1) c5End ∧
    c5End.workers = [WorkerState.crashed] ∧ c5End.aborted = true :=
  ⟨c5_reach, rfl, rfl⟩

/-- Claim C5 (amended): a failure raised inside a task body is NOT
contained.  Whenever a worker invokes a task whose body raises, the
step puts that worker into the absorbing `crashed` state and reaches
`std::terminate` (there is no handler around line 179, so the
exception escapes the thread function); in every subsequent state the
worker is still crashed — it never returns to its idle loop and runs
no further tasks. -/
theorem c5_amended (raises : Nat → Bool) (s : PoolState) (i f a : Nat) (b : Bool)
    (hw : s.workers[i]? = some (WorkerState.running f a b))
    (hr : raises f = true) :
    ∃ s', Step raises s s' ∧ s'.workers[i]? = some WorkerState.crashed ∧
      s'.aborted = true ∧
      ∀ s'', Reach raises s' s'' →
        s''.workers[i]? = some WorkerState.crashed ∧ s''.aborted = true := by
  have hlt : i < s.workers.length := getElem?_some_lt s.workers i _ hw
  have hc : (s.workers.set i
      (if raises f then WorkerState.crashed else WorkerState.idle))[i]?
      = some WorkerState.crashed := by
    rw [hr]
    exact getElem?_set_self s.workers i _ hlt
  have ha : (s.aborted || raises f) = true := by
    rw [hr]
    exact Bool.or_true _
  refine ⟨_, Step.run s i f a b hw, hc, ha, ?_⟩
  intro s'' h
  exact crashed_reach h i hc ha

/-- Witness for `c5_amended` at the concrete C5 scenario. -/
theorem c5_amended_witness :
    (c5Mid.workers[0]? = some (WorkerState.running 0 0 true) ∧
      allRaise 0 = true) ∧
    (∃ s', Step allRaise c5Mid s' ∧
      s'.workers[0]? = some WorkerState.crashed ∧ s'.aborted = true ∧
      ∀ s'', Reach allRaise s' s'' →
        s''.workers[0]? = some WorkerState.crashed ∧ s''.aborted = true) :=
  ⟨⟨rfl, rfl⟩, c5_amended allRaise c5Mid 0 0 0 true rfl rfl⟩

/-- C6 scenario states: one worker; tasks `(1, 2)` and `(3, 4)`
submitted in that order; the worker pops and runs `(1, 2)` first. -/
def c6T1 : PoolState :=
  { agoQuit := false, funcList := [1], argList := [2],
    workers := [WorkerState.idle], executed := [], submitted := [(1, 2)],
    aborted := false }

def c6T2 : PoolState :=
  { agoQuit := false, funcList := [1, 3], argList := [2, 4],
    workers := [WorkerState.idle], executed := [],
    submitted := [(1, 2), (3, 4)], aborted := false }

def c6T3 : PoolState :=
  { agoQuit := false, funcList := [3], argList := [4],
    workers := [WorkerState.running 1 2 false], executed := [],
    submitted := [(1, 2), (3, 4)], aborted := false }

def c6State : PoolState :=
  { agoQuit := false, funcList := [3], argList := [4],
    workers := [WorkerState.idle], executed := [(1, 2)],
    submitted := [(1, 2), (3, 4)], aborted := false }

theorem c6_reach : Reach noRaise (mkAgo 1) c6State := by
  have h1 : Step noRaise (mkAgo 1) c6T1 :=
    step_congr (Step.go (mkAgo 1) 1 2) (by decide)
  have h2 : Step noRaise c6T1 c6T2 :=
    step_congr (Step.go c6T1 3 4) (by decide)
  have h3 : Step noRaise c6T2 c6T3 :=
    step_congr (Step.grabTask c6T2 0 1 [3] (by decide) (by decide) (by decide))
      (by decide)
  have h4 : Step noRaise c6T3 c6State :=
    step_congr (Step.run c6T3 0 1 2 false (by decide)) (by decide)
  exact Relation.ReflTransGen.tail (Relation.ReflTransGen.tail
    (Relation.ReflTransGen.tail (Relation.ReflTransGen.single h1) h2) h3) h4

/-- Claim C6: FIFO with a single worker.  In every reachable state of
a pool constructed with concurrency 1, the invocation log is a prefix
of the submission log: `go` appends at the back (lines 123-124), the
single worker pops the oldest entry from the front (lines 163-166),
so tasks are invoked exactly in submission order. -/
theorem c6_fifo (raises : Nat → Bool) (s : PoolState)
    (h : Reach raises (mkAgo 1) s) :
    ∃ t, s.executed ++ t = s.submitted := by
  obtain ⟨hlen, heq⟩ := invOne_reach h (by decide) invOne_init
  refine ⟨inflight s ++ s.funcList.zip s.argList, ?_⟩
  rw [← List.append_assoc, heq]

/-- Witness for `c6_fifo` at the concrete C6 scenario. -/
theorem c6_witness :
    Reach noRaise (mkAgo 1) c6State ∧
    (∃ t, c6State.executed ++ t = c6State.submitted) ∧
    c6State.executed = [(1, 2)] ∧ c6State.submitted = [(1, 2), (3, 4)] :=
  ⟨c6_reach, c6_fifo noRaise c6State c6_reach, rfl, rfl⟩

/-- Claim C7: the source does NOT hold the queue lock for every access
to the shared state.  The table `agoAccesses` transcribes every access
of `src/unnamed/part_001` to `func_list`, `arg_list` and `ago_quit`:
all queue accesses and all condition-variable predicate checks (in
`idle` and in `wait`) are under `func_mutex`, but the teardown step
that raises the quit flag — the destructor's write at line 95 — is
performed with no lock held (as is the ctor's initialisation at line
70).  The unsynchronised write at line 95 races with the locked
predicate evaluation at lines 153-154: a worker that has evaluated the
predicate (seeing `ago_quit` false and the queue empty) but not yet
blocked can miss the destructor's `notify_all` (line 98, also made
without the lock) — the classic lost wakeup the claim says the locking
discipline prevents. -/
theorem c7_quit_write_unlocked :
    (⟨SrcFn.inDtor, 95, SharedVar.quitFlag, true, false⟩ : VarAccess)
      ∈ agoAccesses ∧
    ¬ (∀ acc ∈ agoAccesses, acc.underFuncMutex = true) ∧
    (∀ acc ∈ agoAccesses,
      (acc.var = SharedVar.funcListVar ∨ acc.var = SharedVar.argListVar) →
        acc.underFuncMutex = true) ∧
    (∀ acc ∈ agoAccesses,
      (acc.fn = SrcFn.inIdle ∨ acc.fn = SrcFn.inWait) →
        acc.underFuncMutex = true) := by
  decide

/-- Claim C8, counterexample: under the fault model in which the third
`new std::thread` (iteration 2) throws during a 4-worker construction,
the constructor exits by exception with 2 workers already spawned,
the quit flag never raised for them and none of them joined: the
already-spawned workers are not torn down (they are leaked), contrary
to the claim's "after cleanly tearing down any workers already
spawned". -/
theorem c8_counterexample :
    ctorRun 4 (some 2) = Except.error
      { spawned := 2, quitRaisedBeforeExit := false, threadsJoined := 0 } := by
  rfl

/-- Claim C8 (amended): construction with requested concurrency `N`
either returns normally with all `N` workers spawned (when no thread
creation fails below `N`), or lets the thread-creation failure
propagate to the caller — it never returns normally with fewer than
`N` workers — but on failure at iteration `i` the `i` already-spawned
workers are left behind with no quit signal and no join: they are not
torn down. -/
theorem c8_amended (mc : Int) (failAt : Option Nat) :
    ((∀ i, failAt = some i → mc.toNat ≤ i) →
      ctorRun mc failAt = Except.ok (mkAgo mc) ∧
        (mkAgo mc).workers.length = mc.toNat) ∧
    (∀ i, failAt = some i → i < mc.toNat →
      ctorRun mc failAt = Except.error
        { spawned := i, quitRaisedBeforeExit := false, threadsJoined := 0 }) := by
  constructor
  · intro hcond
    have hok : spawnLoop failAt 0 mc.toNat = Except.ok (0 + mc.toNat) :=
      spawnLoop_ok failAt mc.toNat 0 (by
        intro i hi
        exact Or.inr (by simpa using hcond i hi))
    refine ⟨?_, List.length_replicate _ _⟩
    show (match spawnLoop failAt 0 mc.toNat with
      | Except.error e => Except.error e
      | Except.ok _ => Except.ok (mkAgo mc)) = Except.ok (mkAgo mc)
    rw [hok]
  · intro i hi hlt
    have herr := spawnLoop_fail mc.toNat 0 i (Nat.zero_le i) (by omega)
    rw [hi]
    show (match spawnLoop (some i) 0 mc.toNat with
      | Except.error e => Except.error e
      | Except.ok _ => Except.ok (mkAgo mc)) = _
    rw [herr]

/-- Witness for `c8_amended`: a fault-free 4-worker construction
succeeds with 4 workers; a 6-worker construction whose sixth spawn
fails propagates the failure with 5 leaked workers. -/
theorem c8_witness :
    (ctorRun 4 none = Except.ok (mkAgo 4) ∧
      (mkAgo 4).workers.length = Int.toNat 4) ∧
    ctorRun 6 (some 5) = Except.error
      { spawned := 5, quitRaisedBeforeExit := false, threadsJoined := 0 } :=
  ⟨(c8_amended 4 none).1 (by intro i hi; cases hi),
    (c8_amended 6 (some 5)).2 5 rfl (by decide)⟩

/-- C9 scenario states: a two-worker pool; task `(9, 10)` submitted
and popped by worker 0. -/
def c9Mid : PoolState :=
  { agoQuit := false, funcList := [9], argList := [10],
    workers := [WorkerState.idle, WorkerState.idle], executed := [],
    submitted := [(9, 10)], aborted := false }

def c9State : PoolState :=
  { agoQuit := false, funcList := [], argList := [],
    workers := [WorkerState.running 9 10 true, WorkerState.idle],
    executed := [], submitted := [(9, 10)], aborted := false }

theorem c9_reach : Reach noRaise (mkAgo 2) c9State := by
  have h1 : Step noRaise (mkAgo 2) c9Mid :=
    step_congr (Step.go (mkAgo 2) 9 10) (by decide)
  have h2 : Step noRaise c9Mid c9State :=
    step_congr (Step.grabTask c9Mid 0 9 [] (by decide) (by decide) (by decide))
      (by decide)
  exact Relation.ReflTransGen.tail (Relation.ReflTransGen.single h1) h2

/-- Claim C9: the two queues stay in sync and pops pair up correctly.
In every reachable state of any pool, `func_list` and `arg_list` have
equal length (both are pushed together inside `go`'s critical section,
lines 121-125, and popped together inside `idle`'s critical section,
lines 163-166), and every pair that was invoked or is in flight is a
pair that some `go` call pushed together: a worker always runs a
function with exactly the argument submitted alongside it. -/
theorem c9_queues_in_sync (raises : Nat → Bool) (m : Int) (s : PoolState)
    (h : Reach raises (mkAgo m) s) :
    s.funcList.length = s.argList.length ∧
    ∀ p ∈ s.executed ++ inflight s, p ∈ s.submitted := by
  obtain ⟨hlen, hperm⟩ := inv_reach h (inv_init m)
  refine ⟨hlen, ?_⟩
  intro p hp
  exact (hperm.mem_iff).mpr (List.mem_append_left _ hp)

/-- Witness for `c9_queues_in_sync` at the concrete C9 scenario. -/
theorem c9_witness :
    Reach noRaise (mkAgo 2) c9State ∧
    (c9State.funcList.length = c9State.argList.length ∧
      ∀ p ∈ c9State.executed ++ inflight c9State, p ∈ c9State.submitted) :=
  ⟨c9_reach, c9_queues_in_sync noRaise 2 c9State c9_reach⟩

/-- Claim C10: constructing with `max_conc <= 0` is not rejected: the
spawning loop (line 74) runs zero times, so the constructor returns
normally with no workers.  On such a pool `wait` called with the empty
queue returns immediately (its predicate already holds), and a task
submitted via `go` is never executed in any reachable state — there is
no worker to pop it. -/
theorem c10_zero_workers (m : Int) (hm : m ≤ 0) :
    (mkAgo m).workers = [] ∧ waitCanReturn (mkAgo m) ∧
    ∀ raises s', Reach raises (mkAgo m) s' → s'.executed = [] := by
  have hw : (mkAgo m).workers = [] := by
    show List.replicate m.toNat WorkerState.idle = []
    rw [Int.toNat_of_nonpos hm]
    rfl
  refine ⟨hw, rfl, ?_⟩
  intro raises s' h
  exact (no_workers_frozen h hw rfl).2

/-- Witness for `c10_zero_workers` at `max_conc = -3`. -/
theorem c10_witness :
    ((-3 : Int) ≤ 0) ∧
    ((mkAgo (-3)).workers = [] ∧ waitCanReturn (mkAgo (-3)) ∧
      ∀ raises s', Reach raises (mkAgo (-3)) s' → s'.executed = []) :=
  ⟨by decide, c10_zero_workers (-3) (by decide)⟩
